import Mathlib

/-!
Shallow embedding of `brainsmash/utils/mem.py` (`create`), the preprocessing
pipeline that converts a delimited text distance matrix into two on-disk
arrays (ascending-sorted per-row distances, and the sort permutation).

Modelling conventions:
* a text file is a `List (List Char)`, one entry per line, without the
  trailing newline character;
* numeric field values are rationals (`ℚ`), parsed by a decimal parser
  modelling Python float conversion of a token;
* the external MaskLoader (`checks.check_image_file`, a declared black box
  that returns a numeric vector from a file path) is modelled by passing the
  loaded vector directly, next to the mask file path;
* side effects (reading the source for line counting, loading the mask,
  writing the mask side-artifact, allocating the two memory-mapped output
  files, opening the source for streaming) are recorded in an event trace,
  in program order; an error aborts the run, so every event in the trace
  happened before the error was raised;
* the two memory-mapped output arrays are allocated zero-filled with shape
  `nv × nv` (as `numpy.lib.format.open_memmap(mode := w+)` does) and rows are
  written at positions `0, 1, …` in streaming order; unwritten trailing rows
  therefore stay zero-filled.
-/

namespace Brainsmash

/-- The space character, Python's default `delimiter` for `create`. -/
def spaceChar : Char := Char.ofNat 32

/-- Python `str.rstrip()`: remove all trailing whitespace of a line. -/
def rstripChars (l : List Char) : List Char :=
  (l.reverse.dropWhile Char.isWhitespace).reverse

/-- Python `str.split(sep)` for a one-character separator: split at every
occurrence, keeping empty fields (`"a  b".split(" ") = ["a","","b"]`). -/
def splitOnChar (d : Char) : List Char → List (List Char)
  | [] => [[]]
  | c :: cs =>
    match splitOnChar d cs with
    | [] => [[]]
    | p :: ps => if c = d then [] :: p :: ps else (c :: p) :: ps

/-- Numeric value of a list of decimal digit characters. -/
def digitsVal (l : List Char) : ℕ :=
  l.foldl (fun a c => 10 * a + (c.toNat - 48)) 0

/-- All characters are decimal digits. -/
def allDigits (l : List Char) : Bool := l.all Char.isDigit

/-- Unsigned decimal numeral, with an optional fractional part
(`"12"`, `"12.5"`, `"12."`, `".5"`). -/
def parseUnsigned (l : List Char) : Option ℚ :=
  match splitOnChar (Char.ofNat 46) l with
  | [ip] =>
    if ip ≠ [] ∧ allDigits ip then some ((digitsVal ip : ℕ) : ℚ) else none
  | [ip, fp] =>
    if (ip ≠ [] ∨ fp ≠ []) ∧ allDigits ip ∧ allDigits fp then
      some (((digitsVal ip : ℕ) : ℚ) +
        ((digitsVal fp : ℕ) : ℚ) / ((10 : ℚ) ^ fp.length))
    else none
  | _ => none

/-- Modelled from the spec: conversion of one delimiter-separated "numeric
field" to its value, as `np.array(fields, dtype=np.float32)` converts each
token — an optionally signed decimal numeral; any other token is rejected
(`ValueError` in numpy, `none` here). -/
def parseFloat (l : List Char) : Option ℚ :=
  match l with
  | [] => none
  | c :: rest =>
    if c = Char.ofNat 45 then (parseUnsigned rest).map (fun q => -q)
    else if c = Char.ofNat 43 then parseUnsigned rest
    else parseUnsigned l

/-- Side effects of `create`, in program order. -/
inductive Ev where
  /-- the source file is opened and fully read by `files.count_lines` -/
  | countSource : Ev
  /-- the mask file is loaded by `checks.check_image_file` -/
  | loadMask : Ev
  /-- `mask.txt` is written into the output directory (`np.savetxt`) -/
  | writeMask : Ev
  /-- `distmat.npy` is created on disk (`open_memmap`) -/
  | allocDist : Ev
  /-- `index.npy` is created on disk (`open_memmap`) -/
  | allocIndex : Ev
  /-- the source file is opened for the streaming loop -/
  | openSource : Ev
deriving DecidableEq, Repr

/-- The exceptions `create` can raise. -/
inductive Err where
  /-- `IOError`: the output directory does not exist -/
  | missingOutputDir : String → Err
  /-- `ValueError`: mask element count ≠ source row count; carries the row
  count, the distance-file path, the mask element count, the mask-file path
  (exactly the data interpolated into the message at lines 59-61) -/
  | sizeMismatch : ℕ → String → ℕ → String → Err
  /-- numpy `IndexError` from `np.arange(nv)[~mask]` when the boolean mask
  length differs from the indexed array length; carries both lengths -/
  | booleanIndexMismatch : ℕ → ℕ → Err
  /-- `ValueError` from `np.array(..., dtype=np.float32)` on a token that is
  not numeric -/
  | nonNumericToken : List Char → Err
  /-- numpy `IndexError` from fancy indexing `row[idx]` when a requested
  column is out of range; carries the row length and the offending index -/
  | columnIndexOutOfRange : ℕ → ℕ → Err
deriving DecidableEq, Repr

/-- The streaming-phase errors ("malformed row" in the spec's table). -/
def Err.isMalformedRow : Err → Bool
  | .nonNumericToken _ => true
  | .columnIndexOutOfRange _ _ => true
  | _ => false

/-- `np.array(tokens, dtype=np.float32)`: convert every token, failing at the
first non-numeric one. -/
def parseFields : List (List Char) → Except Err (List ℚ)
  | [] => .ok []
  | f :: fs =>
    match parseFloat f with
    | none => .error (.nonNumericToken f)
    | some q =>
      match parseFields fs with
      | .error e => .error e
      | .ok rest => .ok (q :: rest)

/-- numpy fancy integer indexing `a[idx]`: pick element `k` of `a` for each
`k` in `idx`, raising `IndexError` at the first out-of-range index. -/
def npIndex (a : List ℚ) : List ℕ → Except Err (List ℚ)
  | [] => .ok []
  | k :: ks =>
    match a.get? k with
    | none => .error (.columnIndexOutOfRange a.length k)
    | some v =>
      match npIndex a ks with
      | .error e => .error e
      | .ok rest => .ok (v :: rest)

/-- numpy boolean-mask indexing `a[m]`: requires the mask length to equal the
array length (else `IndexError`, modelled as `none`), and keeps the elements
at `true` positions. -/
def booleanIndex (a : List ℕ) (m : List Bool) : Option (List ℕ) :=
  if a.length = m.length then
    some ((a.zip m).filterMap (fun p => if p.2 then some p.1 else none))
  else none

/-- `np.argsort(d)`: a permutation of `0, …, d.length - 1` that puts the
values of `d` in ascending order (tie order among equal values is an
implementation detail of numpy's sort; any value-ascending permutation is a
faithful model, here the stable insertion sort). -/
def argsort (d : List ℚ) : List ℕ :=
  List.insertionSort (fun i j => d.getD i 0 ≤ d.getD j 0) (List.range d.length)

/-- The body executed for one retained, non-blank (already rstripped) line:
parse all fields, project onto the retained columns `idx`, and return the
sorted distances together with the sorting permutation
(`d = np.array(line.split(delimiter), dtype=np.float32)[idx]`,
`sort_idx = np.argsort(d)`, row values `d[sort_idx]`). -/
def processOne (idx : List ℕ) (delimiter : Char) (line : List Char) :
    Except Err (List ℚ × List ℕ) :=
  match parseFields (splitOnChar delimiter line) with
  | .error e => .error e
  | .ok parsed =>
    match npIndex parsed idx with
    | .error e => .error e
    | .ok d => .ok ((argsort d).map (fun k => d.getD k 0), argsort d)

/-- Python `enumerate` starting at `k`. -/
def enumerate (k : ℕ) : List (List Char) → List (ℕ × List Char)
  | [] => []
  | a :: as => (k, a) :: enumerate (k + 1) as

/-- The streaming loop of `create` over the enumerated source lines: a line
whose number is not in `idx` is skipped; a retained line is rstripped and, if
blank, silently skipped; otherwise it is processed and its (sorted row,
permutation) pair is written at the next output position.  The returned list
holds the written rows in order; an error aborts the whole run. -/
def processLines (idx : List ℕ) (delimiter : Char) :
    List (ℕ × List Char) → Except Err (List (List ℚ × List ℕ))
  | [] => .ok []
  | (il, l) :: rest =>
    if il ∈ idx then
      if rstripChars l = [] then processLines idx delimiter rest
      else
        match processOne idx delimiter (rstripChars l) with
        | .error e => .error e
        | .ok row =>
          match processLines idx delimiter rest with
          | .error e => .error e
          | .ok rows => .ok (row :: rows)
    else processLines idx delimiter rest

/-- `os.path.join(a, b)` for a relative second component. -/
def pathJoin (a b : String) : String :=
  if a.toList = [] then b
  else if a.toList.getLast? = some (Char.ofNat 47) then a ++ b
  else a ++ String.mk [Char.ofNat 47] ++ b

/-- POSIX `os.path.isabs`: a path is absolute iff it starts with a slash. -/
def isAbsolute (p : String) : Bool :=
  p.toList.head? = some (Char.ofNat 47)

/-- The data a successful run of `create` leaves behind: the shape `nv`
recorded in both `.npy` headers, the contents of `distmat.npy` and
`index.npy`, the contents of the `mask.txt` side-artifact (when a mask was
supplied), and the returned dict (as an ordered key-value list). -/
structure CreateOk where
  nv : ℕ
  distmat : List (List ℚ)
  indexArr : List (List ℕ)
  maskArtifact : Option (List ℕ)
  ret : List (String × String)
deriving DecidableEq, Repr

/-- Outcome of a run of `create`: the trace of side effects that happened (in
order), and either the error that aborted the run or its results. -/
structure CreateResult where
  trace : List Ev
  result : Except Err CreateOk
deriving Repr

instance : DecidableEq (Except Err CreateOk) := fun a b =>
  match a, b with
  | .ok x, .ok y =>
    if h : x = y then .isTrue (by rw [h]) else .isFalse (by simp [h])
  | .error e, .error f =>
    if h : e = f then .isTrue (by rw [h]) else .isFalse (by simp [h])
  | .ok _, .error _ => .isFalse (by simp)
  | .error _, .ok _ => .isFalse (by simp)

instance : DecidableEq CreateResult := fun a b =>
  if h : a.trace = b.trace ∧ a.result = b.result then
    .isTrue (by cases a; cases b; simp_all)
  else .isFalse (by cases a; cases b; simp_all)

/-- Allocation of the two output files and the streaming phase of `create`
(source lines 74-103): open the source, create the two zero-filled
memory-mapped `nv × nv` arrays, run the loop, and return the artifact paths.
In every call made by `create` the number of written rows is at most `nv`
(there are at most `nv` retained line numbers), so appending the zero-filled
unwritten suffix reproduces the final on-disk contents. -/
def createStream (sourceLines : List (List Char)) (output_dir : String)
    (delimiter : Char) (t : List Ev) (maskArt : Option (List ℕ))
    (nv : ℕ) (idx : List ℕ) : CreateResult :=
  let npydfile := pathJoin output_dir "distmat.npy"
  let npyifile := pathJoin output_dir "index.npy"
  let t2 := t ++ [Ev.openSource, Ev.allocDist, Ev.allocIndex]
  match processLines idx delimiter (enumerate 0 sourceLines) with
  | .error e => ⟨t2, .error e⟩
  | .ok rows =>
    ⟨t2, .ok {
      nv := nv
      distmat := rows.map Prod.fst ++
        List.replicate (nv - rows.length) (List.replicate nv (0 : ℚ))
      indexArr := rows.map Prod.snd ++
        List.replicate (nv - rows.length) (List.replicate nv (0 : ℕ))
      maskArtifact := maskArt
      ret := [("distmat", npydfile), ("index", npyifile)] }⟩

/-- `create(dist_file, output_dir, maskfile, delimiter)` of
`brainsmash/utils/mem.py`.  `sourceLines` is the content of `dist_file`;
`outputDirExists` is whether `os.path.exists(output_dir)` holds; `maskfile`
carries the mask file path together with the numeric vector the black-box
loader returns for it.  Faithful to the source order:
`nlines = files.count_lines(dist_file)` (which reads the source file) runs
first; then the output-directory check; then mask load, size check, `mask.txt`
write, `nv = (~mask).sum()` and `idx = np.arange(nv)[~mask]`; then the
streaming phase. -/
def create (dist_file : String) (sourceLines : List (List Char))
    (output_dir : String) (outputDirExists : Bool)
    (maskfile : Option (String × List ℚ)) (delimiter : Char) : CreateResult :=
  let nlines := sourceLines.length
  let t0 := [Ev.countSource]
  if ¬ outputDirExists then
    ⟨t0, .error (.missingOutputDir output_dir)⟩
  else
    match maskfile with
    | some (mpath, mvec) =>
      let t1 := t0 ++ [Ev.loadMask]
      let mask := mvec.map (fun x => decide (x ≠ 0))
      if mask.length ≠ nlines then
        ⟨t1, .error (.sizeMismatch nlines dist_file mask.length mpath)⟩
      else
        let t2 := t1 ++ [Ev.writeMask]
        let maskArt := mask.map (fun b => if b then 1 else 0)
        let nv := (mask.map not).count true
        match booleanIndex (List.range nv) (mask.map not) with
        | none => ⟨t2, .error (.booleanIndexMismatch nv (mask.map not).length)⟩
        | some idx => createStream sourceLines output_dir delimiter t2
            (some maskArt) nv idx
    | none =>
      createStream sourceLines output_dir delimiter t0 none nlines
        (List.range nlines)

/-- Modelled from the spec: the retained-vertex index the spec prescribes —
"the ascending sequence of positions where the mask is false" (for the
refinement comparison in claim C1). -/
def specRetainedIndex (mask : List Bool) : List ℕ :=
  ((List.range mask.length).zip mask).filterMap
    (fun p => if p.2 then none else some p.1)

/-- Parsing and projection of one raw source line, as the streaming loop does
it (rstrip, split, convert all fields, project onto the retained columns):
the "masked/projected (but unsorted) original row" of the round-trip
property. -/
def projectLine (idx : List ℕ) (delimiter : Char) (l : List Char) :
    Except Err (List ℚ) :=
  match parseFields (splitOnChar delimiter (rstripChars l)) with
  | .error e => .error e
  | .ok parsed => npIndex parsed idx

/-- The round-trip relation between one output row pair and its source line:
the distance row equals the projected original row reordered by the index
row. -/
def rowRoundTrip (idx : List ℕ) (delimiter : Char) (l : List Char)
    (drow : List ℚ) (irow : List ℕ) : Bool :=
  match projectLine idx delimiter l with
  | .error _ => false
  | .ok d => drow == irow.map (fun k => d.getD k 0)

/-- A line the spec's "malformed row" table row describes, relative to the
retained columns `idx`: some token is non-numeric, or some retained column
index is out of range of the split fields. -/
def badLine (idx : List ℕ) (delimiter : Char) (line : List Char) : Prop :=
  (∃ f ∈ splitOnChar delimiter line, parseFloat f = none) ∨
  (∃ k ∈ idx, (splitOnChar delimiter line).length ≤ k)

instance (idx : List ℕ) (c : Char) (line : List Char) :
    Decidable (badLine idx c line) :=
  decidable_of_iff
    ((∃ f ∈ splitOnChar c line, parseFloat f = none) ∨
      (∃ k ∈ idx, (splitOnChar c line).length ≤ k))
    Iff.rfl

/-! ### Helper lemmas about `argsort` -/

theorem argsort_perm (d : List ℚ) :
    List.Perm (argsort d) (List.range d.length) :=
  List.perm_insertionSort _ _

theorem argsort_length (d : List ℚ) : (argsort d).length = d.length := by
  simpa using (argsort_perm d).length_eq

theorem argsort_sorted (d : List ℚ) :
    List.Sorted (fun i j => d.getD i 0 ≤ d.getD j 0) (argsort d) := by
  haveI h1 : IsTotal ℕ (fun i j => d.getD i 0 ≤ d.getD j 0) :=
    ⟨fun _ _ => le_total _ _⟩
  haveI h2 : IsTrans ℕ (fun i j => d.getD i 0 ≤ d.getD j 0) :=
    ⟨fun _ _ _ hab hbc => le_trans hab hbc⟩
  exact List.sorted_insertionSort _ _

theorem argsort_map_sorted (d : List ℚ) :
    List.Sorted (· ≤ ·) ((argsort d).map (fun k => d.getD k 0)) :=
  List.Pairwise.map _ (fun _ _ h => h) (argsort_sorted d)

theorem sorted_getD_le {l : List ℚ} (h : List.Sorted (· ≤ ·) l) :
    ∀ j, j + 1 < l.length → l.getD j 0 ≤ l.getD (j + 1) 0 := by
  intro j hj
  have h1 : j < l.length := Nat.lt_of_succ_lt hj
  rw [List.getD_eq_getElem _ _ h1, List.getD_eq_getElem _ _ hj]
  exact List.pairwise_iff_getElem.mp h j (j + 1) h1 hj (Nat.lt_succ_self j)

theorem replicate_getD_zero (n j : ℕ) :
    (List.replicate n (0 : ℚ)).getD j 0 = 0 := by
  rcases lt_or_ge j n with h | h
  · rw [List.getD_eq_getElem _ _ (by simpa using h), List.getElem_replicate]
  · rw [List.getD_eq_default _ _ (by simpa using h)]

/-! ### Helper lemmas about field parsing and projection -/

theorem parseFields_ok_length {fs : List (List Char)} {parsed : List ℚ}
    (h : parseFields fs = .ok parsed) : parsed.length = fs.length := by
  induction fs generalizing parsed with
  | nil => simp only [parseFields] at h; cases h; rfl
  | cons f fs ih =>
    simp only [parseFields] at h
    cases hf : parseFloat f with
    | none => rw [hf] at h; cases h
    | some q =>
      rw [hf] at h
      cases hr : parseFields fs with
      | error e => rw [hr] at h; cases h
      | ok rest =>
        rw [hr] at h; cases h
        simpa using ih hr

theorem parseFields_error_shape {fs : List (List Char)} {e : Err}
    (h : parseFields fs = .error e) : ∃ t, e = .nonNumericToken t := by
  induction fs with
  | nil => simp only [parseFields] at h; cases h
  | cons f fs ih =>
    simp only [parseFields] at h
    cases hf : parseFloat f with
    | none => rw [hf] at h; cases h; exact ⟨f, rfl⟩
    | some q =>
      rw [hf] at h
      cases hr : parseFields fs with
      | error e2 => rw [hr] at h; cases h; exact ih hr
      | ok rest => rw [hr] at h; cases h

theorem parseFields_error_of_bad {fs : List (List Char)}
    (hb : ∃ f ∈ fs, parseFloat f = none) : ∃ e, parseFields fs = .error e := by
  induction fs with
  | nil => simp at hb
  | cons f fs ih =>
    simp only [parseFields]
    cases hf : parseFloat f with
    | none => exact ⟨_, rfl⟩
    | some q =>
      rcases hb with ⟨g, hg, hgp⟩
      rcases List.mem_cons.mp hg with rfl | hg
      · rw [hf] at hgp; cases hgp
      · obtain ⟨e, he⟩ := ih ⟨g, hg, hgp⟩
        rw [he]
        exact ⟨e, rfl⟩

theorem npIndex_ok_length {a : List ℚ} {ks : List ℕ} {d : List ℚ}
    (h : npIndex a ks = .ok d) : d.length = ks.length := by
  induction ks generalizing d with
  | nil => simp only [npIndex] at h; cases h; rfl
  | cons k ks ih =>
    simp only [npIndex] at h
    cases hk : a.get? k with
    | none => rw [hk] at h; cases h
    | some v =>
      rw [hk] at h
      cases hr : npIndex a ks with
      | error e => rw [hr] at h; cases h
      | ok rest => rw [hr] at h; cases h; simpa using ih hr

theorem npIndex_error_shape {a : List ℚ} {ks : List ℕ} {e : Err}
    (h : npIndex a ks = .error e) : ∃ m k, e = .columnIndexOutOfRange m k := by
  induction ks with
  | nil => simp only [npIndex] at h; cases h
  | cons k ks ih =>
    simp only [npIndex] at h
    cases hk : a.get? k with
    | none => rw [hk] at h; cases h; exact ⟨a.length, k, rfl⟩
    | some v =>
      rw [hk] at h
      cases hr : npIndex a ks with
      | error e2 => rw [hr] at h; cases h; exact ih hr
      | ok rest => rw [hr] at h; cases h

theorem npIndex_error_of_ge {a : List ℚ} {ks : List ℕ}
    (hb : ∃ k ∈ ks, a.length ≤ k) : ∃ e, npIndex a ks = .error e := by
  induction ks with
  | nil => simp at hb
  | cons k ks ih =>
    simp only [npIndex]
    cases hk : a.get? k with
    | none => exact ⟨_, rfl⟩
    | some v =>
      rcases hb with ⟨j, hj, hjl⟩
      rcases List.mem_cons.mp hj with rfl | hj
      · have := List.get?_eq_none.mpr hjl
        rw [this] at hk; cases hk
      · obtain ⟨e, he⟩ := ih ⟨j, hj, hjl⟩
        rw [he]
        exact ⟨e, rfl⟩

/-- The value `npIndex` returns is the pointwise `getD` projection. -/
theorem npIndex_ok_eq_map {a : List ℚ} {ks : List ℕ} {d : List ℚ}
    (h : npIndex a ks = .ok d) : d = ks.map (fun k => a.getD k 0) := by
  induction ks generalizing d with
  | nil => simp only [npIndex] at h; cases h; rfl
  | cons k ks ih =>
    simp only [npIndex] at h
    cases hk : a.get? k with
    | none => rw [hk] at h; cases h
    | some v =>
      rw [hk] at h
      cases hr : npIndex a ks with
      | error e => rw [hr] at h; cases h
      | ok rest =>
        rw [hr] at h; cases h
        rw [List.map_cons, ← ih hr]
        congr 1
        simp [List.getD_eq_getElem?_getD, ← List.get?_eq_getElem?, hk]

/-! ### Helper lemmas about the mask index computation -/

theorem count_true_eq_length {m : List Bool} (h : m.count true = m.length) :
    ∀ b ∈ m, b = true := by
  induction m with
  | nil => simp
  | cons a as ih =>
    cases a
    · exfalso
      have hle := List.count_le_length true as
      simp [List.count_cons] at h
      omega
    · intro b hb
      rcases List.mem_cons.mp hb with rfl | hb
      · rfl
      · exact ih (by simpa [List.count_cons] using h) b hb

theorem zip_filterMap_all_true :
    ∀ (a : List ℕ) (m : List Bool), a.length = m.length →
      (∀ b ∈ m, b = true) →
      (a.zip m).filterMap (fun p => if p.2 then some p.1 else none) = a := by
  intro a
  induction a with
  | nil => intro m _ _; simp
  | cons x xs ih =>
    intro m hlen hall
    cases m with
    | nil => simp at hlen
    | cons b bs =>
      have hb : b = true := hall b (List.mem_cons_self _ _)
      subst hb
      have ihh := ih bs (by simpa using hlen)
        (fun c hc => hall c (List.mem_cons_of_mem _ hc))
      simp [List.zip_cons_cons, List.filterMap_cons, ihh]

theorem booleanIndex_ok_all_true {a : List ℕ} {m : List Bool} {idx : List ℕ}
    (h : booleanIndex a m = some idx) (hall : ∀ b ∈ m, b = true) :
    idx = a ∧ a.length = m.length := by
  unfold booleanIndex at h
  split at h
  · next hlen =>
    cases h
    exact ⟨zip_filterMap_all_true a m hlen hall, hlen⟩
  · cases h

theorem booleanIndex_ok_length {a : List ℕ} {m : List Bool} {idx : List ℕ}
    (h : booleanIndex a m = some idx) : a.length = m.length := by
  unfold booleanIndex at h
  split at h
  · next hlen => exact hlen
  · cases h

/-! ### Helper lemmas about the per-line processing -/

theorem processOne_ok_parts {idx : List ℕ} {delim : Char} {line : List Char}
    {ds : List ℚ} {si : List ℕ}
    (h : processOne idx delim line = .ok (ds, si)) :
    ∃ parsed d, parseFields (splitOnChar delim line) = .ok parsed ∧
      npIndex parsed idx = .ok d ∧ si = argsort d ∧
      ds = si.map (fun k => d.getD k 0) ∧ d.length = idx.length := by
  unfold processOne at h
  cases hp : parseFields (splitOnChar delim line) with
  | error e => simp only [hp] at h; cases h
  | ok parsed =>
    simp only [hp] at h
    cases hn : npIndex parsed idx with
    | error e => simp only [hn] at h; cases h
    | ok d =>
      simp only [hn, Except.ok.injEq, Prod.mk.injEq] at h
      obtain ⟨hds, hsi⟩ := h
      exact ⟨parsed, d, rfl, hn, hsi.symm, by rw [← hds, hsi],
        npIndex_ok_length hn⟩

theorem processOne_error_shape {idx : List ℕ} {delim : Char} {line : List Char}
    {e : Err} (h : processOne idx delim line = .error e) :
    e.isMalformedRow = true := by
  unfold processOne at h
  cases hp : parseFields (splitOnChar delim line) with
  | error e2 =>
    simp only [hp, Except.error.injEq] at h
    subst h
    obtain ⟨t, rfl⟩ := parseFields_error_shape hp
    rfl
  | ok parsed =>
    simp only [hp] at h
    cases hn : npIndex parsed idx with
    | error e2 =>
      simp only [hn, Except.error.injEq] at h
      subst h
      obtain ⟨m, k, rfl⟩ := npIndex_error_shape hn
      rfl
    | ok d => simp only [hn] at h; cases h

theorem processOne_error_of_bad {idx : List ℕ} {delim : Char} {line : List Char}
    (hb : badLine idx delim line) : ∃ e, processOne idx delim line = .error e := by
  cases ho : processOne idx delim line with
  | error e => exact ⟨e, rfl⟩
  | ok row =>
    exfalso
    obtain ⟨ds, si⟩ := row
    obtain ⟨parsed, d, hp, hn, _, _, _⟩ := processOne_ok_parts ho
    rcases hb with hb | hb
    · obtain ⟨e, he⟩ := parseFields_error_of_bad hb
      rw [hp] at he; cases he
    · obtain ⟨k, hk, hkl⟩ := hb
      have hlen : parsed.length = (splitOnChar delim line).length :=
        parseFields_ok_length hp
      have hge : parsed.length ≤ k := by omega
      obtain ⟨e, he⟩ := npIndex_error_of_ge (a := parsed) ⟨k, hk, hge⟩
      rw [hn] at he; cases he

theorem processOne_rowRoundTrip {idx : List ℕ} {delim : Char} {l : List Char}
    {ds : List ℚ} {si : List ℕ}
    (h : processOne idx delim (rstripChars l) = .ok (ds, si)) :
    rowRoundTrip idx delim l ds si = true := by
  obtain ⟨parsed, d, hp, hn, hsi, hds, _⟩ := processOne_ok_parts h
  unfold rowRoundTrip projectLine
  simp only [hp, hn, hds]
  simp

/-! ### Helper lemmas about the streaming loop -/

theorem processLines_mem {idx : List ℕ} {delim : Char} :
    ∀ {pairs : List (ℕ × List Char)} {rows : List (List ℚ × List ℕ)}
      {row : List ℚ × List ℕ},
      processLines idx delim pairs = .ok rows → row ∈ rows →
      ∃ l, processOne idx delim l = .ok row := by
  intro pairs
  induction pairs with
  | nil =>
    intro rows row h hr
    simp only [processLines] at h; cases h; simp at hr
  | cons p rest ih =>
    intro rows row h hr
    obtain ⟨il, l⟩ := p
    simp only [processLines] at h
    by_cases hil : il ∈ idx
    · rw [if_pos hil] at h
      by_cases hbl : rstripChars l = []
      · rw [if_pos hbl] at h
        exact ih h hr
      · rw [if_neg hbl] at h
        cases ho : processOne idx delim (rstripChars l) with
        | error e => rw [ho] at h; cases h
        | ok row1 =>
          rw [ho] at h
          cases hrest : processLines idx delim rest with
          | error e => rw [hrest] at h; cases h
          | ok rows2 =>
            rw [hrest] at h; cases h
            rcases List.mem_cons.mp hr with rfl | hr
            · exact ⟨rstripChars l, ho⟩
            · exact ih hrest hr
    · rw [if_neg hil] at h
      exact ih h hr

theorem processLines_error_shape {idx : List ℕ} {delim : Char} :
    ∀ {pairs : List (ℕ × List Char)} {e : Err},
      processLines idx delim pairs = .error e → e.isMalformedRow = true := by
  intro pairs
  induction pairs with
  | nil => intro e h; simp only [processLines] at h; cases h
  | cons p rest ih =>
    intro e h
    obtain ⟨il, l⟩ := p
    simp only [processLines] at h
    by_cases hil : il ∈ idx
    · rw [if_pos hil] at h
      by_cases hbl : rstripChars l = []
      · rw [if_pos hbl] at h
        exact ih h
      · rw [if_neg hbl] at h
        cases ho : processOne idx delim (rstripChars l) with
        | error e2 =>
          rw [ho] at h; cases h
          exact processOne_error_shape ho
        | ok row1 =>
          rw [ho] at h
          cases hrest : processLines idx delim rest with
          | error e2 => rw [hrest] at h; cases h; exact ih hrest
          | ok rows2 => rw [hrest] at h; cases h
    · rw [if_neg hil] at h
      exact ih h

theorem processLines_error_of_bad {idx : List ℕ} {delim : Char} :
    ∀ {pairs : List (ℕ × List Char)},
      (∃ p ∈ pairs, p.1 ∈ idx ∧ rstripChars p.2 ≠ [] ∧
        badLine idx delim (rstripChars p.2)) →
      ∃ e, processLines idx delim pairs = .error e := by
  intro pairs
  induction pairs with
  | nil => intro hb; simp at hb
  | cons p rest ih =>
    intro hb
    obtain ⟨il, l⟩ := p
    simp only [processLines]
    by_cases hil : il ∈ idx
    · rw [if_pos hil]
      by_cases hbl : rstripChars l = []
      · rw [if_pos hbl]
        rcases hb with ⟨q, hq, hq1, hq2, hq3⟩
        rcases List.mem_cons.mp hq with rfl | hq
        · exact absurd hbl hq2
        · exact ih ⟨q, hq, hq1, hq2, hq3⟩
      · rw [if_neg hbl]
        cases ho : processOne idx delim (rstripChars l) with
        | error e => exact ⟨e, rfl⟩
        | ok row1 =>
          rcases hb with ⟨q, hq, hq1, hq2, hq3⟩
          rcases List.mem_cons.mp hq with rfl | hq
          · obtain ⟨e, he⟩ := processOne_error_of_bad hq3
            rw [he] at ho; cases ho
          · obtain ⟨e, he⟩ := ih ⟨q, hq, hq1, hq2, hq3⟩
            rw [he]
            exact ⟨e, rfl⟩
    · rw [if_neg hil]
      rcases hb with ⟨q, hq, hq1, hq2, hq3⟩
      rcases List.mem_cons.mp hq with rfl | hq
      · exact absurd hq1 hil
      · exact ih ⟨q, hq, hq1, hq2, hq3⟩

/-- On a fully retained, fully non-blank batch of lines the streaming loop
writes one row per line, in order. -/
theorem processLines_enum_ok {idx : List ℕ} {delim : Char} :
    ∀ (lines : List (List Char)) (k : ℕ) (rows : List (List ℚ × List ℕ)),
      (∀ j, j < lines.length → (k + j) ∈ idx) →
      (∀ l ∈ lines, rstripChars l ≠ []) →
      processLines idx delim (enumerate k lines) = .ok rows →
      rows.length = lines.length ∧
      ∀ i, i < lines.length →
        processOne idx delim (rstripChars (lines.getD i [])) =
          .ok (rows.getD i ([], [])) := by
  intro lines
  induction lines with
  | nil =>
    intro k rows _ _ h
    simp only [enumerate, processLines] at h
    cases h
    exact ⟨rfl, by intro i hi; simp at hi⟩
  | cons l ls ih =>
    intro k rows hret hnb h
    simp only [enumerate, processLines] at h
    have hil : k ∈ idx := by simpa using hret 0 (by simp)
    rw [if_pos hil] at h
    have hbl : rstripChars l ≠ [] := hnb l (List.mem_cons_self _ _)
    rw [if_neg hbl] at h
    cases ho : processOne idx delim (rstripChars l) with
    | error e => rw [ho] at h; cases h
    | ok row1 =>
      rw [ho] at h
      cases hrest : processLines idx delim (enumerate (k + 1) ls) with
      | error e => rw [hrest] at h; cases h
      | ok rows2 =>
        rw [hrest] at h; cases h
        have hret2 : ∀ j, j < ls.length → (k + 1 + j) ∈ idx := by
          intro j hj
          have := hret (j + 1) (by simpa using Nat.succ_lt_succ hj)
          simpa [Nat.add_assoc, Nat.add_comm 1 j] using this
        have hnb2 : ∀ m ∈ ls, rstripChars m ≠ [] :=
          fun m hm => hnb m (List.mem_cons_of_mem _ hm)
        obtain ⟨hlen, hrow⟩ := ih (k + 1) rows2 hret2 hnb2 hrest
        refine ⟨by simpa using hlen, ?_⟩
        intro i hi
        cases i with
        | zero => simpa using ho
        | succ i =>
          have hi2 : i < ls.length := by simpa using Nat.lt_of_succ_lt_succ hi
          simpa using hrow i hi2

/-! ### Helper lemmas about `createStream` and `create` -/

theorem createStream_error {lines : List (List Char)} {out : String}
    {delim : Char} {t : List Ev} {ma : Option (List ℕ)} {nv : ℕ}
    {idx : List ℕ} {e : Err}
    (h : processLines idx delim (enumerate 0 lines) = .error e) :
    (createStream lines out delim t ma nv idx).result = .error e := by
  simp [createStream, h]

theorem createStream_ok_shape {lines : List (List Char)} {out : String}
    {delim : Char} {t : List Ev} {ma : Option (List ℕ)} {nv : ℕ}
    {idx : List ℕ} {r : CreateOk}
    (h : (createStream lines out delim t ma nv idx).result = .ok r) :
    ∃ rows, processLines idx delim (enumerate 0 lines) = .ok rows ∧
      r.nv = nv ∧
      r.distmat = rows.map Prod.fst ++
        List.replicate (nv - rows.length) (List.replicate nv 0) ∧
      r.indexArr = rows.map Prod.snd ++
        List.replicate (nv - rows.length) (List.replicate nv 0) := by
  unfold createStream at h
  cases hpl : processLines idx delim (enumerate 0 lines) with
  | error e => simp only [hpl] at h; cases h
  | ok rows =>
    simp only [hpl, Except.ok.injEq] at h
    exact ⟨rows, rfl, by rw [← h], by rw [← h], by rw [← h]⟩

theorem create_none_eq {df : String} {lines : List (List Char)} {out : String}
    {delim : Char} :
    create df lines out true none delim =
      createStream lines out delim [Ev.countSource] none lines.length
        (List.range lines.length) := rfl

theorem create_some_ok {df : String} {lines : List (List Char)} {out : String}
    {mpath : String} {mvec : List ℚ} {delim : Char} {r : CreateOk}
    (h : (create df lines out true (some (mpath, mvec)) delim).result = .ok r) :
    ∃ t ma, (createStream lines out delim t ma lines.length
        (List.range lines.length)).result = .ok r := by
  unfold create at h
  simp only [Bool.not_true, if_neg] at h
  by_cases hsz : (mvec.map (fun x => decide (x ≠ 0))).length ≠ lines.length
  · rw [if_pos hsz] at h
    cases h
  · rw [if_neg hsz] at h
    push_neg at hsz
    cases hbi : booleanIndex
        (List.range (((mvec.map (fun x => decide (x ≠ 0))).map not).count true))
        ((mvec.map (fun x => decide (x ≠ 0))).map not) with
    | none => simp only [hbi] at h; cases h
    | some idx =>
      simp only [hbi] at h
      have hlen : (List.range
            (((mvec.map (fun x => decide (x ≠ 0))).map not).count true)).length =
          ((mvec.map (fun x => decide (x ≠ 0))).map not).length :=
        booleanIndex_ok_length hbi
      rw [List.length_range] at hlen
      have hall : ∀ b ∈ (mvec.map (fun x => decide (x ≠ 0))).map not, b = true :=
        count_true_eq_length hlen
      obtain ⟨hidx, _⟩ := booleanIndex_ok_all_true hbi hall
      have hnv : ((mvec.map (fun x => decide (x ≠ 0))).map not).count true =
          lines.length := by
        rw [hlen]; simpa using hsz
      rw [hidx, hnv] at h
      exact ⟨_, _, h⟩

theorem create_ok_shape {df : String} {lines : List (List Char)} {out : String}
    {mf : Option (String × List ℚ)} {delim : Char} {r : CreateOk}
    (h : (create df lines out true mf delim).result = .ok r) :
    ∃ rows, processLines (List.range lines.length) delim
        (enumerate 0 lines) = .ok rows ∧
      r.nv = lines.length ∧
      r.distmat = rows.map Prod.fst ++
        List.replicate (lines.length - rows.length)
          (List.replicate lines.length 0) ∧
      r.indexArr = rows.map Prod.snd ++
        List.replicate (lines.length - rows.length)
          (List.replicate lines.length 0) := by
  cases mf with
  | none =>
    rw [create_none_eq] at h
    exact createStream_ok_shape h
  | some m =>
    obtain ⟨mpath, mvec⟩ := m
    obtain ⟨t, ma, h2⟩ := create_some_ok h
    exact createStream_ok_shape h2

theorem mem_enumerate {l : List Char} :
    ∀ (lines : List (List Char)) (k : ℕ), l ∈ lines →
      ∃ il, (il, l) ∈ enumerate k lines ∧ il < k + lines.length := by
  intro lines
  induction lines with
  | nil => intro k h; simp at h
  | cons a as ih =>
    intro k h
    rcases List.mem_cons.mp h with rfl | h
    · exact ⟨k, List.mem_cons_self _ _, by simp only [List.length_cons]; omega⟩
    · obtain ⟨il, h1, h2⟩ := ih (k + 1) h
      refine ⟨il, List.mem_cons_of_mem _ h1, ?_⟩
      simp only [List.length_cons]
      omega

theorem getD_map_fst {rows : List (List ℚ × List ℕ)} {i : ℕ}
    (h : i < rows.length) :
    (rows.map Prod.fst).getD i [] = (rows.getD i ([], [])).fst := by
  rw [List.getD_eq_getElem _ _ (by simpa using h), List.getElem_map,
    List.getD_eq_getElem _ _ h]

theorem getD_map_snd {rows : List (List ℚ × List ℕ)} {i : ℕ}
    (h : i < rows.length) :
    (rows.map Prod.snd).getD i [] = (rows.getD i ([], [])).snd := by
  rw [List.getD_eq_getElem _ _ (by simpa using h), List.getElem_map,
    List.getD_eq_getElem _ _ h]

/-! ### Claim theorems

Each theorem below settles one claim of the specification review; its doc
comment names the claim. -/

/-- C1 (code_bug evidence): for a 2-row source file and the mask vector
[0, 1] (second vertex excluded), `create` does not compute the
retained-vertex index prescribed by the spec (the ascending positions where
the mask is false, here `specRetainedIndex [false, true] = [0]`, with
Nv = 1): the buggy `idx = np.arange(nv)[~mask]` indexes a length-1 array
with a length-2 boolean mask and the run aborts with the numpy boolean-index
IndexError instead. -/
theorem create_masked_run_boolean_index_crash :
    (create "d.txt" ["0 1".toList, "1 0".toList] "/o" true
        (some ("m.img", [0, 1])) spaceChar).result =
      .error (.booleanIndexMismatch 1 2) ∧
    specRetainedIndex [false, true] = [0] ∧
    (([0, 1] : List ℚ).map (fun x => decide (x ≠ 0))) = [false, true] := by
  decide

/-- C2 (counterexample): with a missing output directory the
missing-directory error is indeed raised, but the source file has already
been opened and read at that point (by the line count): `Ev.countSource` is
in the trace of the aborted run, refuting "raised before the source
distance-matrix file is opened or read". -/
theorem missing_dir_error_after_source_read :
    (create "d.txt" ["0 1".toList] "/nodir" false none spaceChar).result =
      .error (.missingOutputDir "/nodir") ∧
    Ev.countSource ∈
      (create "d.txt" ["0 1".toList] "/nodir" false none spaceChar).trace := by
  decide

/-- C2 (amended): when the output directory does not exist, `create` raises
the missing-directory error immediately after the source file has been read
for line counting — before the mask is loaded, before any output file is
created or allocated, and before the source file is opened for streaming:
the aborted run's trace is exactly the line-count read. -/
theorem missing_dir_error_before_any_other_work (a : String)
    (l : List (List Char)) (o : String) (m : Option (String × List ℚ))
    (c : Char) :
    create a l o false m c = ⟨[Ev.countSource], .error (.missingOutputDir o)⟩ :=
  rfl

/-- C3 (counterexample): a retained line with three fields in a 2-row source
file (wrong field count: not exactly N = 2) does not abort the run: `create`
completes successfully, silently ignoring the extra trailing field. -/
theorem wrong_field_count_line_accepted :
    (splitOnChar spaceChar (rstripChars "0 1 9".toList)).length = 3 ∧
    (["0 1 9".toList, "1 0".toList] : List (List Char)).length = 2 ∧
    ((create "d.txt" ["0 1 9".toList, "1 0".toList] "/o" true none
        spaceChar).result.toOption.map (fun r => r.distmat)) =
      some [[0, 1], [0, 1]] := by
  decide

/-- C3 (amended): in an unmasked run over an existing output directory, a
retained non-blank line that carries a non-numeric token, or whose field
count is too small (some retained column index falls outside its field
list), aborts the run with a fatal streaming error of the malformed-row
kind (non-numeric token, or column index out of range); a line with extra
trailing fields is not rejected. -/
theorem malformed_retained_line_aborts (a : String) (l : List (List Char))
    (o : String) (c : Char)
    (hbad : ∃ m ∈ l, rstripChars m ≠ [] ∧
      badLine (List.range l.length) c (rstripChars m)) :
    ∃ e, (create a l o true none c).result = .error e ∧
      e.isMalformedRow = true := by
  obtain ⟨m, hm, hnb, hb⟩ := hbad
  obtain ⟨il, hmem, hlt⟩ := mem_enumerate l 0 hm
  obtain ⟨e, he⟩ := processLines_error_of_bad
    ⟨(il, m), hmem, by simp only [List.mem_range]; omega, hnb, hb⟩
  rw [create_none_eq]
  exact ⟨e, createStream_error he, processLines_error_shape he⟩

/-- C3 witness: the amended theorem applied to a concrete 1-row file whose
single retained line holds the non-numeric token "x". -/
theorem malformed_retained_line_aborts_witness :
    (∃ m ∈ (["0 x".toList] : List (List Char)), rstripChars m ≠ [] ∧
      badLine (List.range (["0 x".toList] : List (List Char)).length)
        spaceChar (rstripChars m)) ∧
    ∃ e, (create "d.txt" ["0 x".toList] "/o" true none spaceChar).result =
        .error e ∧ e.isMalformedRow = true :=
  ⟨by decide,
   malformed_retained_line_aborts "d.txt" ["0 x".toList] "/o" spaceChar
     (by decide)⟩

/-- C4 (code_bug evidence): a source file whose second (retained) line is
blank does not make `create` signal a parse failure: the run completes
successfully; the blank line is silently skipped without incrementing the
output-row counter, and the final row of both output arrays is left
zero-filled. -/
theorem blank_retained_line_passes_silently :
    create "d.txt" ["0 1".toList, "".toList] "/o" true none spaceChar =
      ⟨[Ev.countSource, Ev.openSource, Ev.allocDist, Ev.allocIndex],
        .ok ⟨2, [[0, 1], [0, 0]], [[0, 1], [0, 0]], none,
          [("distmat", "/o/distmat.npy"), ("index", "/o/index.npy")]⟩⟩ := by
  decide

/-- C5 (counterexample): a successful run over a 2-row file whose second
line is blank leaves index-array row 1 equal to [0, 0], which is not a
permutation of the range 0, …, Nv−1 = 0, 1. -/
theorem index_row_not_permutation_after_blank :
    ((create "d.txt" ["0 1".toList, "".toList] "/o" true none
        spaceChar).result.toOption.map (fun r => (r.nv, r.indexArr))) =
      some (2, [[0, 1], [0, 0]]) ∧
    ¬ List.Perm ([0, 0] : List ℕ) (List.range 2) := by
  decide

/-- C5 (amended): in every successful run over a source file all of whose
lines are non-blank, every row of the index array is a permutation of
0, …, Nv−1. -/
theorem index_rows_are_permutations (a : String) (l : List (List Char))
    (o : String) (m : Option (String × List ℚ)) (c : Char) (r : CreateOk)
    (hnb : ∀ s ∈ l, rstripChars s ≠ [])
    (h : (create a l o true m c).result = .ok r) :
    ∀ row ∈ r.indexArr, List.Perm row (List.range r.nv) := by
  obtain ⟨rows, hpl, hnv, hdm, hia⟩ := create_ok_shape h
  obtain ⟨hlen, _⟩ := processLines_enum_ok l 0 rows
    (fun j hj => by simpa using hj) hnb hpl
  intro row hrow
  rw [hia, hlen, Nat.sub_self, List.replicate_zero, List.append_nil] at hrow
  obtain ⟨pr, hpr, rfl⟩ := List.mem_map.mp hrow
  obtain ⟨s, ho⟩ := processLines_mem hpl hpr
  obtain ⟨ds, si⟩ := pr
  obtain ⟨parsed, d, _, _, hsi, _, hdlen⟩ := processOne_ok_parts ho
  have hdl : d.length = l.length := by simpa using hdlen
  simp only [hnv, hsi, ← hdl]
  exact argsort_perm d

/-- C5 witness: the amended theorem applied to a concrete non-blank 2-row
file. -/
theorem index_rows_are_permutations_witness :
    (∀ s ∈ (["0 1".toList, "1 0".toList] : List (List Char)),
      rstripChars s ≠ []) ∧
    ((create "d.txt" ["0 1".toList, "1 0".toList] "/o" true none
        spaceChar).result =
      .ok ⟨2, [[0, 1], [0, 1]], [[0, 1], [1, 0]], none,
        [("distmat", "/o/distmat.npy"), ("index", "/o/index.npy")]⟩) ∧
    ∀ row ∈ (⟨2, [[0, 1], [0, 1]], [[0, 1], [1, 0]], none,
        [("distmat", "/o/distmat.npy"), ("index", "/o/index.npy")]⟩ :
          CreateOk).indexArr,
      List.Perm row (List.range (⟨2, [[0, 1], [0, 1]], [[0, 1], [1, 0]], none,
        [("distmat", "/o/distmat.npy"), ("index", "/o/index.npy")]⟩ :
          CreateOk).nv) :=
  ⟨by decide, by decide,
   index_rows_are_permutations "d.txt" ["0 1".toList, "1 0".toList] "/o" none
     spaceChar _ (by decide) (by decide)⟩

/-- C6 (confirmed): in every successful run, every row of the distance array
is non-decreasing: each adjacent pair satisfies value[j] ≤ value[j+1].
Written rows are ascending-sorted; rows left unwritten by blank-line
skipping are zero-filled and trivially non-decreasing. -/
theorem distmat_rows_nondecreasing (a : String) (l : List (List Char))
    (o : String) (m : Option (String × List ℚ)) (c : Char) (r : CreateOk)
    (h : (create a l o true m c).result = .ok r) :
    ∀ row ∈ r.distmat, ∀ j, j + 1 < row.length →
      row.getD j 0 ≤ row.getD (j + 1) 0 := by
  obtain ⟨rows, hpl, hnv, hdm, hia⟩ := create_ok_shape h
  intro row hrow
  rw [hdm] at hrow
  rcases List.mem_append.mp hrow with hrow | hrow
  · obtain ⟨pr, hpr, rfl⟩ := List.mem_map.mp hrow
    obtain ⟨s, ho⟩ := processLines_mem hpl hpr
    obtain ⟨ds, si⟩ := pr
    obtain ⟨parsed, d, _, _, hsi, hds, _⟩ := processOne_ok_parts ho
    have hsorted : List.Sorted (· ≤ ·) ds := by
      rw [hds, hsi]
      exact argsort_map_sorted d
    exact fun j hj => sorted_getD_le hsorted j hj
  · have hz := List.eq_of_mem_replicate hrow
    subst hz
    intro j hj
    simp [replicate_getD_zero]

/-- C6 witness: the theorem applied to a concrete successful 2-row run. -/
theorem distmat_rows_nondecreasing_witness :
    ((create "d.txt" ["0 2".toList, "2 0".toList] "/o" true none
        spaceChar).result =
      .ok ⟨2, [[0, 2], [0, 2]], [[0, 1], [1, 0]], none,
        [("distmat", "/o/distmat.npy"), ("index", "/o/index.npy")]⟩) ∧
    ∀ row ∈ (⟨2, [[0, 2], [0, 2]], [[0, 1], [1, 0]], none,
        [("distmat", "/o/distmat.npy"), ("index", "/o/index.npy")]⟩ :
          CreateOk).distmat,
      ∀ j, j + 1 < row.length → row.getD j 0 ≤ row.getD (j + 1) 0 :=
  ⟨by decide,
   distmat_rows_nondecreasing "d.txt" ["0 2".toList, "2 0".toList] "/o" none
     spaceChar _ (by decide)⟩

/-- C7 (counterexample): after a blank line desynchronizes the stream, the
round-trip fails: in the successful run over rows "0 1 2", "", "2 3 0",
output row 2 of both arrays is zero-filled, and reordering distance row 2 by
index row 2 does not reproduce the projection of source row 2 (which parses
to [2, 3, 0]). -/
theorem round_trip_fails_after_blank_line :
    ((create "d.txt" ["0 1 2".toList, "".toList, "2 3 0".toList] "/o" true
        none spaceChar).result.toOption.map
        (fun r => (r.nv, r.distmat.getD 2 [], r.indexArr.getD 2 []))) =
      some (3, ([0, 0, 0] : List ℚ), ([0, 0, 0] : List ℕ)) ∧
    rowRoundTrip (List.range 3) spaceChar
      ((["0 1 2".toList, "".toList, "2 3 0".toList] :
        List (List Char)).getD 2 []) [0, 0, 0] [0, 0, 0] = false := by
  decide

/-- C7 (amended): in every successful run over a source file all of whose
lines are non-blank, for every output row i the distance row equals the
projected original source row i reordered by index row i (equivalently, the
inverse of the index permutation recovers the projected unsorted row). -/
theorem round_trip_on_all_rows (a : String) (l : List (List Char))
    (o : String) (m : Option (String × List ℚ)) (c : Char) (r : CreateOk)
    (hnb : ∀ s ∈ l, rstripChars s ≠ [])
    (h : (create a l o true m c).result = .ok r) :
    ∀ i, i < r.nv →
      rowRoundTrip (List.range l.length) c (l.getD i [])
        (r.distmat.getD i []) (r.indexArr.getD i []) = true := by
  obtain ⟨rows, hpl, hnv, hdm, hia⟩ := create_ok_shape h
  obtain ⟨hlen, hrow⟩ := processLines_enum_ok l 0 rows
    (fun j hj => by simpa using hj) hnb hpl
  intro i hi
  rw [hnv] at hi
  have hi2 : i < rows.length := by omega
  have hd : r.distmat.getD i [] = (rows.getD i ([], [])).fst := by
    rw [hdm, hlen, Nat.sub_self, List.replicate_zero, List.append_nil]
    exact getD_map_fst hi2
  have hidx : r.indexArr.getD i [] = (rows.getD i ([], [])).snd := by
    rw [hia, hlen, Nat.sub_self, List.replicate_zero, List.append_nil]
    exact getD_map_snd hi2
  rw [hd, hidx]
  have ho := hrow i hi
  have ho2 : processOne (List.range l.length) c
      (rstripChars (l.getD i [])) =
      .ok ((rows.getD i ([], [])).fst, (rows.getD i ([], [])).snd) := by
    simpa using ho
  exact processOne_rowRoundTrip ho2

/-- C7 witness: the amended theorem applied to a concrete non-blank 2-row
file. -/
theorem round_trip_on_all_rows_witness :
    (∀ s ∈ (["0 3".toList, "3 0".toList] : List (List Char)),
      rstripChars s ≠ []) ∧
    ((create "d.txt" ["0 3".toList, "3 0".toList] "/o" true none
        spaceChar).result =
      .ok ⟨2, [[0, 3], [0, 3]], [[0, 1], [1, 0]], none,
        [("distmat", "/o/distmat.npy"), ("index", "/o/index.npy")]⟩) ∧
    ∀ i, i < (⟨2, [[0, 3], [0, 3]], [[0, 1], [1, 0]], none,
        [("distmat", "/o/distmat.npy"), ("index", "/o/index.npy")]⟩ :
          CreateOk).nv →
      rowRoundTrip (List.range (["0 3".toList, "3 0".toList] :
          List (List Char)).length) spaceChar
        ((["0 3".toList, "3 0".toList] : List (List Char)).getD i [])
        ((⟨2, [[0, 3], [0, 3]], [[0, 1], [1, 0]], none,
          [("distmat", "/o/distmat.npy"), ("index", "/o/index.npy")]⟩ :
            CreateOk).distmat.getD i [])
        ((⟨2, [[0, 3], [0, 3]], [[0, 1], [1, 0]], none,
          [("distmat", "/o/distmat.npy"), ("index", "/o/index.npy")]⟩ :
            CreateOk).indexArr.getD i []) = true :=
  ⟨by decide, by decide,
   round_trip_on_all_rows "d.txt" ["0 3".toList, "3 0".toList] "/o" none
     spaceChar _ (by decide) (by decide)⟩

/-- C8 (confirmed): a mask whose element count differs from the source row
count makes `create` abort with the size-mismatch error carrying both counts
and both file paths, and the trace of the aborted run is exactly the line
count followed by the mask load: the mask side-artifact has not been
written and neither output array has been allocated when the error is
raised. -/
theorem size_mismatch_before_any_output (a o p : String)
    (l : List (List Char)) (v : List ℚ) (c : Char)
    (hsz : v.length ≠ l.length) :
    (create a l o true (some (p, v)) c).result =
      .error (.sizeMismatch l.length a v.length p) ∧
    (create a l o true (some (p, v)) c).trace =
      [Ev.countSource, Ev.loadMask] ∧
    Ev.writeMask ∉ (create a l o true (some (p, v)) c).trace ∧
    Ev.allocDist ∉ (create a l o true (some (p, v)) c).trace ∧
    Ev.allocIndex ∉ (create a l o true (some (p, v)) c).trace := by
  have hmask : (v.map (fun x => decide (x ≠ 0))).length ≠ l.length := by
    simpa using hsz
  have hne : ¬ ¬ (true = true) := by simp
  have hres : create a l o true (some (p, v)) c =
      ⟨[Ev.countSource, Ev.loadMask],
        .error (.sizeMismatch l.length a v.length p)⟩ := by
    simp only [create, if_neg hne, if_pos hmask]
    simp
  rw [hres]
  refine ⟨rfl, rfl, ?_, ?_, ?_⟩ <;> simp

/-- C8 witness: the theorem applied to the spec's own example, a length-4
mask against a 5-row distance file. -/
theorem size_mismatch_before_any_output_witness :
    ((([0, 1, 0, 1] : List ℚ)).length ≠
      (["0".toList, "1".toList, "2".toList, "3".toList, "4".toList] :
        List (List Char)).length) ∧
    ((create "d.txt"
        ["0".toList, "1".toList, "2".toList, "3".toList, "4".toList] "/o"
        true (some ("m.img", [0, 1, 0, 1])) spaceChar).result =
      .error (.sizeMismatch 5 "d.txt" 4 "m.img") ∧
    (create "d.txt"
        ["0".toList, "1".toList, "2".toList, "3".toList, "4".toList] "/o"
        true (some ("m.img", [0, 1, 0, 1])) spaceChar).trace =
      [Ev.countSource, Ev.loadMask] ∧
    Ev.writeMask ∉ (create "d.txt"
        ["0".toList, "1".toList, "2".toList, "3".toList, "4".toList] "/o"
        true (some ("m.img", [0, 1, 0, 1])) spaceChar).trace ∧
    Ev.allocDist ∉ (create "d.txt"
        ["0".toList, "1".toList, "2".toList, "3".toList, "4".toList] "/o"
        true (some ("m.img", [0, 1, 0, 1])) spaceChar).trace ∧
    Ev.allocIndex ∉ (create "d.txt"
        ["0".toList, "1".toList, "2".toList, "3".toList, "4".toList] "/o"
        true (some ("m.img", [0, 1, 0, 1])) spaceChar).trace) :=
  ⟨by decide,
   size_mismatch_before_any_output "d.txt" "/o" "m.img"
     ["0".toList, "1".toList, "2".toList, "3".toList, "4".toList]
     [0, 1, 0, 1] spaceChar (by decide)⟩

/-- C9 (code_bug evidence): for the relative output directory "out" the
returned mapping has exactly the keys "distmat" and "index", but the values
are the relative paths `os.path.join` produces, not absolute paths as the
docstring and spec promise. -/
theorem returned_paths_not_absolute_for_relative_outdir :
    ((create "d.txt" ["0".toList] "out" true none
        spaceChar).result.toOption.map (fun r => r.ret)) =
      some [("distmat", "out/distmat.npy"), ("index", "out/index.npy")] ∧
    isAbsolute "out/distmat.npy" = false ∧
    isAbsolute "out/index.npy" = false := by
  decide

/-- C10 (confirmed): `create` is deterministic — two runs on identical
source-file contents, identical mask data, the same output directory,
directory-existence state and delimiter produce identical traces, identical
output-array contents (including the order among tied equal distances, fixed
by the deterministic `argsort`), and identical returned mappings. -/
theorem create_deterministic (a b : String) (l s : List (List Char))
    (o p : String) (e f : Bool) (u v : Option (String × List ℚ)) (c d : Char)
    (h1 : a = b) (h2 : l = s) (h3 : o = p) (h4 : e = f) (h5 : u = v)
    (h6 : c = d) :
    create a l o e u c = create b s p f v d := by
  subst h1 h2 h3 h4 h5 h6
  rfl

/-- C10 witness: the determinism theorem applied at a concrete input. -/
theorem create_deterministic_witness :
    ("d.txt" : String) = "d.txt" ∧
    create "d.txt" ["0 1".toList, "1 0".toList] "/o" true none spaceChar =
      create "d.txt" ["0 1".toList, "1 0".toList] "/o" true none spaceChar :=
  ⟨rfl,
   create_deterministic "d.txt" "d.txt" ["0 1".toList, "1 0".toList]
     ["0 1".toList, "1 0".toList] "/o" "/o" true true none none spaceChar
     spaceChar rfl rfl rfl rfl rfl rfl⟩

end Brainsmash
